import Mathlib

/-!
Shallow embedding of the VibeCurator.ai song ingestion and retrieval code
(`src/ingest_spotify.py`, `src/tools.py`, `src/main.py`) together with a
model of the external vector-store client described in the specification.

Conventions of the embedding:
* Python strings are `String`, character slicing `s[:n]` is `String.take n`.
* Embedding vectors are opaque lists of rationals (`Vec`); the numeric
  embedding model is an uninterpreted function parameter.
* Python dictionaries with optional keys become structures of `Option` fields;
  `d.get(k, default)` is `Option.getD`, `d[k]` is `getItem` (raising `KeyError`).
* Fallible external calls return `Except String`; a Python `try/except` around
  a call becomes a `match` on that result.
* Machine floats are modelled as rationals; Python `round(x, 4)` is the
  round-half-to-even function `pyRound4`.
-/

namespace VibeCurator

/-- An embedding vector: a fixed-length sequence of numbers.  The numeric
content is irrelevant to the claims, so components are rationals. -/
abbrev Vec := List ℚ

/-- A stored point's payload, as built at ingestion time in
`ingest_spotify.py` (`payloads = [...]`).  Every field except the preview may
be `None` because the source uses `x.get(...)`. -/
structure Payload where
  artist : Option String
  song : Option String
  link : Option String
  text_preview : Option String
deriving DecidableEq, Repr

/-- The `Song` pydantic model of `src/tools.py`: the `score` field defaults
to `None`. -/
structure Song where
  artist : String
  song : String
  link : String
  preview : String
  score : Option ℚ := none
deriving DecidableEq, Repr

/-- A scored point as returned by the store's similarity query
(`results.points` in `search_songs`). -/
structure ScoredPoint where
  score : ℚ
  payload : Payload
deriving DecidableEq, Repr

/-- Collection metadata returned by `client.get_collection`. -/
structure CollectionInfo where
  points_count : Nat
deriving DecidableEq, Repr

/-- A JSON scalar value, used for the dictionaries the tool layer passes to
`json.dumps`. -/
inductive JVal where
  | str (s : String)
  | num (n : Int)
deriving DecidableEq, Repr

/-! ### Python `round(x, 4)` -/

/-- Python `round` to an integer: round half to even (banker's rounding). -/
def roundHalfToEven (q : ℚ) : ℤ :=
  if q - ⌊q⌋ < 1/2 then ⌊q⌋
  else if 1/2 < q - ⌊q⌋ then ⌊q⌋ + 1
  else if ⌊q⌋ % 2 = 0 then ⌊q⌋ else ⌊q⌋ + 1

/-- Python `round(x, 4)`: round to four decimal places, half to even. -/
def pyRound4 (q : ℚ) : ℚ := (roundHalfToEven (q * 10000) : ℚ) / 10000

/-! ### Requests to the vector store

Each tool-layer operation issues exactly one request to the Qdrant client.
Reifying the request makes the argument actually passed to the store a
first-class value. -/

/-- A request to the vector-store client, as issued by the tool layer. -/
inductive StoreRequest where
  /-- `client.query_points(collection_name=..., query=vector, limit=limit)`. -/
  | queryPoints (vector : Vec) (limit : Int)
  /-- `client.scroll(collection_name=..., scroll_filter=Filter(must=[{key, value}]), limit=limit)`. -/
  | scroll (filterKey : String) (filterValue : String) (limit : Int)
  /-- `client.get_collection(name)`. -/
  | getCollection (name : String)
deriving DecidableEq, Repr

/-- The type of a successful store response, by request shape. -/
def StoreRequest.response : StoreRequest → Type
  | .queryPoints _ _ => List ScoredPoint
  | .scroll _ _ _ => List Payload
  | .getCollection _ => CollectionInfo

/-- The `limit` argument carried by a store request, when it has one. -/
def requestLimit : StoreRequest → Option Int
  | .queryPoints _ l => some l
  | .scroll _ _ l => some l
  | .getCollection _ => none

/-- A vector-store client: answers each request or raises. -/
abbrev Store := (r : StoreRequest) → Except String r.response

/-- The fixed collection name (`COLLECTION_NAME = "songs"`). -/
def COLLECTION_NAME : String := "songs"

/-! ### The tool layer (`src/tools.py`) -/

/-- The limit clamp `limit = min(max(1, limit), 50)` shared by the search
tools in `src/tools.py`. -/
def clampLimit (limit : Int) : Int := min (max 1 limit) 50

/-- The single store request issued by `search_songs` after clamping. -/
def search_songs_storeRequest (v : Vec) (limit : Int) : StoreRequest :=
  .queryPoints v (clampLimit limit)

/-- The single store request issued by `search_songs_by_artist`: an
exact-match filter on payload key `"artist"` with the given value. -/
def search_songs_by_artist_storeRequest (artist_name : String) (limit : Int) :
    StoreRequest :=
  .scroll "artist" artist_name (clampLimit limit)

/-- The single store request issued by `get_collection_stats`. -/
def get_collection_stats_storeRequest : StoreRequest :=
  .getCollection COLLECTION_NAME

/-- Formatting of one scored result point inside `search_songs`:
`payload.get(key, default)` plus `round(point.score, 4)`. -/
def toSongScored (p : ScoredPoint) : Song :=
  { artist := p.payload.artist.getD "Unknown"
    song := p.payload.song.getD "Unknown"
    link := p.payload.link.getD ""
    preview := p.payload.text_preview.getD ""
    score := some (pyRound4 p.score) }

/-- Formatting of one scrolled point inside `search_songs_by_artist`; no
`score` is passed, so the model default `None` applies. -/
def toSongPlain (p : Payload) : Song :=
  { artist := p.artist.getD "Unknown"
    song := p.song.getD "Unknown"
    link := p.link.getD ""
    preview := p.text_preview.getD "" }

/-- `search_songs(query, limit)` from `src/tools.py`: clamp the limit, embed
the query, run the similarity query, and format the results; any exception
from the embedder or the store yields `[]`. -/
def search_songs (encode : String → Except String Vec) (store : Store)
    (query : String) (limit : Int) : List Song :=
  match encode query with
  | .error _ => []
  | .ok v =>
    match store (search_songs_storeRequest v limit) with
    | .error _ => []
    | .ok pts => pts.map toSongScored

/-- `search_songs_by_artist(artist_name, limit)` from `src/tools.py`: clamp
the limit, scroll with an exact-match artist filter, and format the points;
any exception yields `[]`. -/
def search_songs_by_artist (store : Store) (artist_name : String)
    (limit : Int) : List Song :=
  match store (search_songs_by_artist_storeRequest artist_name limit) with
  | .error _ => []
  | .ok pts => pts.map toSongPlain

/-- `get_collection_stats()` from `src/tools.py`, modelled up to the external
`json.dumps`: the returned value is the key/value list of the dictionary the
source serializes. -/
def get_collection_stats (store : Store) : List (String × JVal) :=
  match store get_collection_stats_storeRequest with
  | .ok info =>
      [("total_songs", .num info.points_count),
       ("collection_name", .str COLLECTION_NAME),
       ("status", .str "active")]
  | .error e =>
      [("error", .str ("Failed to get stats: " ++ e)),
       ("status", .str "unavailable")]

/-! ### A model of the Qdrant store itself

The Qdrant service is an external collaborator; its behaviour is modelled
from the spec, section 4.1. -/

/-- Descending-by-score order on scored points. -/
def scoreGE (a b : ScoredPoint) : Prop := b.score ≤ a.score

instance : DecidableRel scoreGE := fun a b =>
  inferInstanceAs (Decidable (b.score ≤ a.score))

instance : IsTotal ScoredPoint scoreGE :=
  ⟨fun a b => le_total b.score a.score⟩

instance : IsTrans ScoredPoint scoreGE :=
  ⟨fun _ _ _ h1 h2 => le_trans h2 h1⟩

/-- Sort scored points by descending score. -/
def sortByScoreDesc (pts : List ScoredPoint) : List ScoredPoint :=
  pts.insertionSort scoreGE

/-- Exact-match lookup of a payload metadata key. -/
def payloadField (p : Payload) (key : String) : Option String :=
  if key = "artist" then p.artist
  else if key = "song" then p.song
  else if key = "link" then p.link
  else if key = "text_preview" then p.text_preview
  else none

/-- A point stored in the collection. -/
structure DBPoint where
  id : String
  vector : Vec
  payload : Payload
deriving DecidableEq, Repr

/-- Modelled from the spec: the vector-store query/scan semantics of
section 4.1 — `query(vector, top_k)` returns up to `top_k` points ordered by
descending similarity under the configured metric, `scan(filter, limit)`
returns up to `limit` points matching an exact-match metadata filter, and
`get_collection` reports the point count.  The similarity metric itself
(cosine over the embedding vectors) is the uninterpreted parameter `sim`. -/
def qdrantStore (sim : Vec → Vec → ℚ) (db : List DBPoint) : Store
  | .queryPoints v lim =>
      .ok ((sortByScoreDesc (db.map fun p => ⟨sim v p.vector, p.payload⟩)).take lim.toNat)
  | .scroll key val lim =>
      .ok (((db.filter fun p => payloadField p.payload key == some val).map
        (fun p => p.payload)).take lim.toNat)
  | .getCollection _ => .ok ⟨db.length⟩

/-- A client for which every call raises, with message `e`. -/
def failStore (e : String) : Store := fun _ => .error e

/-! ### Batching (`get_batches` in `src/ingest_spotify.py` and `src/main.py`) -/

/-- The loop body of `get_batches`: `batch` holds the pending items, most
recent first; a batch is emitted as soon as it reaches `size`, and a
non-empty remainder is emitted after the loop. -/
def getBatchesAux (size : Nat) (batch : List α) : List α → List (List α)
  | [] => if batch.isEmpty then [] else [batch.reverse]
  | x :: rest =>
    if (x :: batch).length = size then
      (x :: batch).reverse :: getBatchesAux size [] rest
    else
      getBatchesAux size (x :: batch) rest

/-- `get_batches(iterable, size)`: yield batches of the given size from the
input, with a final short batch when the length is not a multiple. -/
def get_batches (xs : List α) (size : Nat) : List (List α) :=
  getBatchesAux size [] xs

/-- Structural reference form of batching, used to reason about
`get_batches`: emit the first `s` elements, then recurse on the rest. -/
def chunks (s : Nat) (xs : List α) : List (List α) :=
  if xs.isEmpty then []
  else if s = 0 then [xs]
  else xs.take s :: chunks s (xs.drop s)
termination_by xs.length
decreasing_by
  rename_i hne hs
  simp only [List.length_drop]
  have hx : xs ≠ [] := by
    intro h
    rw [h] at hne
    simp at hne
  have : 0 < xs.length := List.length_pos.mpr hx
  omega

/-! ### Ingestion (`ingest_songs` in `src/ingest_spotify.py`) -/

/-- A raw record of the corpus: a dictionary whose keys may be absent. -/
structure SourceRecord where
  artist : Option String
  song : Option String
  link : Option String
  text : Option String
deriving DecidableEq, Repr

/-- Python subscript access `x[key]`: the value when present, `KeyError`
otherwise. -/
def getItem (v : Option String) : Except String String :=
  match v with
  | some s => .ok s
  | none => .error "KeyError"

/-- The descriptive string built for one record by `ingest_songs`:
`f"Artist: {x['artist']} Song: {x['song']} Lyrics: {x['text'][:500]}"`. -/
def embedText (x : SourceRecord) : Except String String := do
  let a ← getItem x.artist
  let s ← getItem x.song
  let t ← getItem x.text
  pure ("Artist: " ++ a ++ " Song: " ++ s ++ " Lyrics: " ++ t.take 500)

/-- The payload built for one record by `ingest_songs`: the raw optional
fields plus `(x.get("text") or "")[:200]` as the preview. -/
def mkPayload (x : SourceRecord) : Payload :=
  { artist := x.artist
    song := x.song
    link := x.link
    text_preview := some ((x.text.getD "").take 200) }

/-- A point as passed to `client.upsert` (`PointStruct`). -/
structure IndexedPoint where
  id : String
  vector : Vec
  payload : Payload
deriving DecidableEq, Repr

/-- Processing of one batch inside `ingest_songs`: build the texts (a missing
key raises), embed them, build the payloads, and zip everything into points.
`uuids` is the stream of fresh identifiers produced by `uuid.uuid4()`, one
per point in generation order; the batch consumes indices starting at
`start`. -/
def processBatch (uuids : Nat → String) (encode : String → Vec) (start : Nat)
    (batch : List SourceRecord) : Except String (List IndexedPoint) := do
  let texts ← batch.mapM embedText
  let embeddings := texts.map encode
  let payloads := batch.map mkPayload
  pure (((embeddings.zip payloads).enum).map fun ip =>
    { id := uuids (start + ip.1), vector := ip.2.1, payload := ip.2.2 })

/-- The sequence of `client.upsert` calls made by the ingestion loop, one
list of points per batch; the first raised exception aborts the run. -/
def ingestLoop (uuids : Nat → String) (encode : String → Vec) :
    Nat → List (List SourceRecord) → Except String (List (List IndexedPoint))
  | _, [] => .ok []
  | start, b :: bs => do
    let pts ← processBatch uuids encode start b
    let rest ← ingestLoop uuids encode (start + b.length) bs
    pure (pts :: rest)

/-- `ingest_songs(ds)` from `src/ingest_spotify.py`, observed as the list of
upsert calls it performs: the dataset is cut into batches of 100 and each
batch becomes one `client.upsert` with one point per record. -/
def ingest_songs (uuids : Nat → String) (encode : String → Vec)
    (ds : List SourceRecord) : Except String (List (List IndexedPoint)) :=
  ingestLoop uuids encode 0 (get_batches ds 100)

/-! ### Corpus loading (`load_spotify_dataset` in `src/ingest_spotify.py`) -/

/-- Python truthiness of an optional string: `None` and `""` are falsy. -/
def truthy : Option String → Bool
  | none => false
  | some s => !s.isEmpty

/-- The `is_valid` check of `load_spotify_dataset`:
`item.get("artist") and item.get("song") and item.get("text")`. -/
def is_valid (x : SourceRecord) : Bool :=
  truthy x.artist && truthy x.song && truthy x.text

/-- Python truthiness of the optional `limit` argument: `None` and `0` are
falsy. -/
def limitTruthy : Option Int → Bool
  | none => false
  | some n => n != 0

/-- The yield loop of `load_spotify_dataset`: skip invalid records, yield
valid ones counting them, and break once `limit` is truthy and reached. -/
def loadLoop (limit : Option Int) : List SourceRecord → Int → List SourceRecord
  | [], _ => []
  | x :: rest, count =>
    if !(is_valid x) then loadLoop limit rest count
    else if limitTruthy limit && decide (count + 1 ≥ limit.getD 0) then [x]
    else x :: loadLoop limit rest (count + 1)

/-- `load_spotify_dataset(limit)` from `src/ingest_spotify.py`, applied to
the record sequence `ds` produced by the external dataset loader. -/
def load_spotify_dataset (ds : List SourceRecord) (limit : Option Int) :
    List SourceRecord :=
  loadLoop limit ds 0

/-! ### Collection bootstrap (`ingest_songs` lines 39–48) -/

/-- A distance metric of the vector store.  Ingestion always uses cosine. -/
inductive Metric where
  | cosine
  | euclid
  | dot
deriving DecidableEq, Repr

/-- The schema of a collection: vector dimensionality and metric, as in
`VectorParams(size=..., distance=...)`. -/
structure CollectionSchema where
  dim : Nat
  metric : Metric
deriving DecidableEq, Repr

/-- Modelled from the spec: the collection-level state of the vector store,
a map from collection names to schemas (section 4.1). -/
structure StoreState where
  collections : List (String × CollectionSchema)
deriving DecidableEq, Repr

/-- `client.get_collection(name)`: the schema when the collection exists,
an exception otherwise. -/
def get_collection (st : StoreState) (name : String) :
    Except String CollectionSchema :=
  match st.collections.lookup name with
  | some c => .ok c
  | none => .error "collection not found"

/-- `client.create_collection(name, vectors_config)`: register a new
collection with the given schema. -/
def create_collection (st : StoreState) (name : String)
    (schema : CollectionSchema) : StoreState :=
  ⟨(name, schema) :: st.collections⟩

/-- The collection bootstrap of `ingest_songs`: `try: get_collection`
and `except: create_collection` — create only when absent. -/
def ensure_collection (st : StoreState) (name : String) (dim : Nat)
    (metric : Metric) : StoreState :=
  match get_collection st name with
  | .ok _ => st
  | .error _ => create_collection st name ⟨dim, metric⟩

/-! ### Derived notions and sample data used in the statements -/

/-- All three critical keys are present on a record (they may still be
empty); this is what record processing in `ingest_songs` needs in order not
to raise `KeyError`. -/
def fieldsSome (x : SourceRecord) : Bool :=
  x.artist.isSome && x.song.isSome && x.text.isSome

/-- The descriptive string of a record whose critical keys are present,
written with total accessors. -/
def embedStr (x : SourceRecord) : String :=
  "Artist: " ++ x.artist.getD "" ++ " Song: " ++ x.song.getD "" ++
    " Lyrics: " ++ (x.text.getD "").take 500

/-- The point built for the record at global position `n`, as assembled by
`ingest_songs` out of a fresh id, the embedded descriptive string and the
payload. -/
def pointOf (uuids : Nat → String) (encode : String → Vec) (n : Nat)
    (x : SourceRecord) : IndexedPoint :=
  { id := uuids n, vector := encode (embedStr x), payload := mkPayload x }

/-- A sample payload for concrete instantiations. -/
def samplePayload : Payload :=
  { artist := some "A", song := some "S", link := some "L",
    text_preview := some "P" }

/-- A sample one-point collection for concrete instantiations. -/
def sampleDB : List DBPoint := [{ id := "p0", vector := [0], payload := samplePayload }]

/-- A sample valid corpus record for concrete instantiations. -/
def sampleRecord : SourceRecord :=
  { artist := some "A", song := some "S", link := some "L", text := some "T" }

/-- A sample invalid corpus record (missing lyrics text). -/
def badRecord : SourceRecord :=
  { artist := some "A", song := some "S", link := some "L", text := none }

/-- A sample store state holding one collection, for concrete
instantiations. -/
def sampleState : StoreState := ⟨[("songs", ⟨384, .cosine⟩)]⟩

/-! ## Theorems

First the batching lemmas relating the loop `get_batches` to the structural
chunking `chunks`, then the claims. -/

theorem getBatchesAux_eq_chunks {α : Type _} (s : Nat) (batch xs : List α)
    (h : batch.length < s) :
    getBatchesAux s batch xs = chunks s (batch.reverse ++ xs) := by
  induction xs generalizing batch with
  | nil =>
    rw [getBatchesAux, List.append_nil]
    by_cases hb : batch.isEmpty
    · rw [if_pos hb, List.isEmpty_iff.mp hb]
      simp [chunks]
    · rw [if_neg hb]
      have hbne : batch ≠ [] := fun he => by rw [he] at hb; exact hb rfl
      have hs0 : s ≠ 0 := by omega
      rw [chunks]
      rw [if_neg (by simp [hbne]), if_neg hs0]
      rw [List.take_of_length_le (by rw [List.length_reverse]; omega)]
      rw [List.drop_eq_nil_of_le (by rw [List.length_reverse]; omega)]
      simp [chunks]
  | cons x rest ih =>
    rw [getBatchesAux]
    by_cases hlen : (x :: batch).length = s
    · have hlen' : batch.length + 1 = s := by simpa using hlen
      rw [if_pos hlen]
      have h0 : getBatchesAux s [] rest = chunks s rest := by
        simpa using ih [] (by simp only [List.length_nil]; omega)
      rw [h0]
      conv_rhs => rw [chunks]
      rw [if_neg (by simp), if_neg (by omega : ¬s = 0)]
      rw [show batch.reverse ++ x :: rest = (batch.reverse ++ [x]) ++ rest by simp]
      rw [List.take_left' (by simp; omega), List.drop_left' (by simp; omega)]
      rw [List.reverse_cons]
    · have hlt : (x :: batch).length < s := by
        simp only [List.length_cons] at hlen ⊢
        omega
      rw [if_neg hlen, ih (x :: batch) hlt]
      congr 1
      simp
theorem get_batches_eq_chunks {α : Type _} (xs : List α) {s : Nat} (hs : 0 < s) :
    get_batches xs s = chunks s xs := by
  have h := getBatchesAux_eq_chunks s [] xs (by simpa using hs)
  simpa [get_batches] using h

theorem chunks_flatten {α : Type _} (s : Nat) (xs : List α) :
    (chunks s xs).flatten = xs := by
  refine chunks.induct s (fun ys => (chunks s ys).flatten = ys) ?_ ?_ ?_ xs
  · intro ys hy
    rw [List.isEmpty_iff.mp hy]
    simp [chunks]
  · intro ys hy h0
    rw [chunks, if_neg hy, if_pos h0]
    simp
  · intro ys hy h0 ih
    rw [chunks, if_neg hy, if_neg h0, List.flatten_cons, ih, List.take_append_drop]

theorem chunks_mem {α : Type _} (s : Nat) (hs : 0 < s) (xs : List α) :
    ∀ b ∈ chunks s xs, b ≠ [] ∧ b.length ≤ s := by
  refine chunks.induct s (fun ys => ∀ b ∈ chunks s ys, b ≠ [] ∧ b.length ≤ s) ?_ ?_ ?_ xs
  · intro ys hy b hb
    rw [List.isEmpty_iff.mp hy] at hb
    simp [chunks] at hb
  · intro ys hy h0
    omega
  · intro ys hy h0 ih b hb
    rw [chunks, if_neg hy, if_neg h0] at hb
    have hyne : ys ≠ [] := fun he => by rw [he] at hy; exact hy rfl
    have hpos : 0 < ys.length := List.length_pos.mpr hyne
    rcases List.mem_cons.mp hb with rfl | hb2
    · constructor
      · intro he
        have hl : (ys.take s).length = 0 := by rw [he]; rfl
        rw [List.length_take] at hl
        omega
      · rw [List.length_take]
        omega
    · exact ih b hb2

theorem chunks_length {α : Type _} (s : Nat) (hs : 0 < s) (xs : List α) :
    (chunks s xs).length = (xs.length + s - 1) / s := by
  refine chunks.induct s (fun ys => (chunks s ys).length = (ys.length + s - 1) / s)
    ?_ ?_ ?_ xs
  · intro ys hy
    rw [List.isEmpty_iff.mp hy]
    have h1 : chunks s ([] : List α) = [] := by simp [chunks]
    rw [h1]
    simp only [List.length_nil]
    exact (Nat.div_eq_of_lt (by omega)).symm
  · intro ys hy h0
    omega
  · intro ys hy h0 ih
    rw [chunks, if_neg hy, if_neg h0, List.length_cons, ih, List.length_drop]
    have hyne : ys ≠ [] := fun he => by rw [he] at hy; exact hy rfl
    have hpos : 0 < ys.length := List.length_pos.mpr hyne
    by_cases hle : ys.length ≤ s
    · rw [show ys.length - s = 0 by omega]
      rw [Nat.div_eq_of_lt (by omega)]
      rw [show ys.length + s - 1 = (ys.length - 1) + s by omega]
      rw [Nat.add_div_right _ hs, Nat.div_eq_of_lt (by omega)]
    · rw [show ys.length + s - 1 = (ys.length - s + s - 1) + s by omega]
      rw [Nat.add_div_right _ hs]

theorem chunks_dropLast {α : Type _} (s : Nat) (hs : 0 < s) (xs : List α) :
    ∀ b ∈ (chunks s xs).dropLast, b.length = s := by
  refine chunks.induct s (fun ys => ∀ b ∈ (chunks s ys).dropLast, b.length = s)
    ?_ ?_ ?_ xs
  · intro ys hy b hb
    rw [List.isEmpty_iff.mp hy] at hb
    simp [chunks] at hb
  · intro ys hy h0
    omega
  · intro ys hy h0 ih b hb
    rw [chunks, if_neg hy, if_neg h0] at hb
    by_cases hrest : chunks s (ys.drop s) = []
    · rw [hrest] at hb
      simp at hb
    · rw [List.dropLast_cons_of_ne_nil hrest] at hb
      rcases List.mem_cons.mp hb with rfl | hb2
      · have hdne : ys.drop s ≠ [] := fun he => hrest (by rw [he]; simp [chunks])
        have hgt : ¬ys.length ≤ s := fun hle => hdne (List.drop_eq_nil_of_le hle)
        rw [List.length_take]
        omega
      · exact ih b hb2

theorem chunks_getLast {α : Type _} (s : Nat) (hs : 0 < s) (xs : List α)
    (hx : xs ≠ []) :
    ∃ b, (chunks s xs).getLast? = some b ∧
      b.length = if xs.length % s = 0 then s else xs.length % s := by
  refine chunks.induct s (fun ys => ys ≠ [] →
    ∃ b, (chunks s ys).getLast? = some b ∧
      b.length = if ys.length % s = 0 then s else ys.length % s) ?_ ?_ ?_ xs hx
  · intro ys hy hne
    exact absurd (List.isEmpty_iff.mp hy) hne
  · intro ys hy h0
    omega
  · intro ys hy h0 ih hne
    rw [chunks, if_neg hy, if_neg h0]
    have hpos : 0 < ys.length := List.length_pos.mpr hne
    by_cases hd : ys.drop s = []
    · have hrest : chunks s (ys.drop s) = [] := by rw [hd]; simp [chunks]
      rw [hrest]
      have hle : ys.length ≤ s := by
        have := List.length_drop s ys ▸ congrArg List.length hd
        simp at this
        omega
      refine ⟨ys.take s, by simp, ?_⟩
      rw [List.length_take]
      split_ifs with hmod
      · rcases Nat.lt_or_ge ys.length s with hlt | hge
        · rw [Nat.mod_eq_of_lt hlt] at hmod
          omega
        · omega
      · rcases Nat.lt_or_ge ys.length s with hlt | hge
        · rw [Nat.mod_eq_of_lt hlt]
          omega
        · have heq : ys.length = s := by omega
          rw [heq, Nat.mod_self] at hmod
          omega
    · obtain ⟨b, hb1, hb2⟩ := ih hd
      refine ⟨b, ?_, ?_⟩
      · rw [List.getLast?_cons, hb1]
        rfl
      · have hgt : ¬ys.length ≤ s := fun hle => hd (List.drop_eq_nil_of_le hle)
        rw [List.length_drop] at hb2
        have hmod : (ys.length - s) % s = ys.length % s := by
          conv_rhs => rw [show ys.length = (ys.length - s) + s by omega]
          rw [Nat.add_mod_right]
        rw [hb2, hmod]

/-- C10: for every finite input sequence `xs` and every batch size `s ≥ 1`,
concatenating the batches yielded by `get_batches xs s` in order yields
exactly `xs` (nothing dropped, duplicated or reordered), and every yielded
batch is non-empty with size at most `s`. -/
theorem C10_get_batches_partition {α : Type _} (xs : List α) (s : Nat)
    (hs : 1 ≤ s) :
    (get_batches xs s).flatten = xs ∧
    ∀ b ∈ get_batches xs s, b ≠ [] ∧ b.length ≤ s := by
  rw [get_batches_eq_chunks xs hs]
  exact ⟨chunks_flatten s xs, chunks_mem s hs xs⟩

/-- Witness for C10 at `xs = [0,…,6]`, `s = 3`. -/
theorem C10_get_batches_partition_witness :
    (get_batches (List.range 7) 3).flatten = List.range 7 ∧
    ∀ b ∈ get_batches (List.range 7) 3, b ≠ [] ∧ b.length ≤ 3 :=
  C10_get_batches_partition (List.range 7) 3 (by decide)

theorem embedText_ok {x : SourceRecord} (h : fieldsSome x = true) :
    embedText x = .ok (embedStr x) := by
  rcases x with ⟨a, s, l, t⟩
  simp only [fieldsSome, Bool.and_eq_true, Option.isSome_iff_exists] at h
  obtain ⟨⟨⟨a1, ha⟩, s1, hs⟩, t1, ht⟩ := h
  subst ha
  subst hs
  subst ht
  rfl

theorem is_valid_fieldsSome {x : SourceRecord} (h : is_valid x = true) :
    fieldsSome x = true := by
  rcases x with ⟨a, s, l, t⟩
  cases a <;> cases s <;> cases t <;> simp_all [is_valid, truthy, fieldsSome]

theorem mapM_embedText {batch : List SourceRecord}
    (h : ∀ y ∈ batch, fieldsSome y = true) :
    batch.mapM embedText = .ok (batch.map embedStr) := by
  induction batch with
  | nil => rfl
  | cons x rest ih =>
    rw [List.mapM_cons, embedText_ok (h x (List.mem_cons_self x rest)),
      ih (fun y hy => h y (List.mem_cons_of_mem x hy))]
    rfl

theorem processBatch_eq {uuids : Nat → String} {encode : String → Vec}
    {start : Nat} {batch : List SourceRecord}
    (h : ∀ y ∈ batch, fieldsSome y = true) :
    processBatch uuids encode start batch =
      .ok (batch.enum.map fun nx => pointOf uuids encode (start + nx.1) nx.2) := by
  have h1 : processBatch uuids encode start batch =
      .ok (((((batch.map embedStr).map encode).zip (batch.map mkPayload)).enum).map
        fun ip => { id := uuids (start + ip.1), vector := ip.2.1, payload := ip.2.2 }) := by
    simp only [processBatch, mapM_embedText h]
    rfl
  rw [h1, List.map_map, List.zip_map', List.enum_map, List.map_map]
  rfl

theorem ingestLoop_ok (uuids : Nat → String) (encode : String → Vec)
    (bs : List (List SourceRecord)) (start : Nat)
    (h : ∀ b ∈ bs, ∀ y ∈ b, fieldsSome y = true) :
    ∃ ups, ingestLoop uuids encode start bs = .ok ups ∧
      ups.map List.length = bs.map List.length ∧
      ∀ pts ∈ ups, ∀ pt ∈ pts, ∃ b ∈ bs, ∃ y ∈ b, pt.payload = mkPayload y := by
  induction bs generalizing start with
  | nil => exact ⟨[], rfl, rfl, by simp⟩
  | cons b rest ih =>
    obtain ⟨ups, h1, h2, h3⟩ := ih (start + b.length)
      (fun c hc => h c (List.mem_cons_of_mem b hc))
    refine ⟨(b.enum.map fun nx => pointOf uuids encode (start + nx.1) nx.2) :: ups,
      ?_, ?_, ?_⟩
    · simp only [ingestLoop, processBatch_eq (h b (List.mem_cons_self b rest)), h1]
      rfl
    · simp only [List.map_cons, h2, List.length_map, List.enum_length]
    · intro pts hpts pt hpt
      rcases List.mem_cons.mp hpts with rfl | hin
      · obtain ⟨nx, hnx, hpe⟩ := List.mem_map.mp hpt
        rcases nx with ⟨i, y⟩
        obtain ⟨hi, hy⟩ := List.mem_enum hnx
        refine ⟨b, List.mem_cons_self b rest, y, ?_, ?_⟩
        · rw [hy]
          exact List.getElem_mem hi
        · rw [← hpe]
          rfl
      · obtain ⟨c, hc, y, hy, he⟩ := h3 pts hin pt hpt
        exact ⟨c, List.mem_cons_of_mem b hc, y, hy, he⟩

/-- C4: ingesting exactly 250 valid records with batch size 100 performs
exactly 3 upsert calls with batch sizes 100, 100 and 50, adding 250 points in
total; generally, `get_batches xs s` for `s > 0` yields `⌈|xs|/s⌉` batches,
all of size `s` except a final batch of size `|xs| % s` when that is
non-zero. -/
theorem C4_ingest_250 {α : Type _} (uuids : Nat → String) (encode : String → Vec)
    (ds : List SourceRecord) (h250 : ds.length = 250)
    (hval : ∀ x ∈ ds, is_valid x = true) (xs : List α) (s : Nat) (hs : 0 < s) :
    (∃ ups, ingest_songs uuids encode ds = .ok ups ∧
      ups.length = 3 ∧ ups.map List.length = [100, 100, 50] ∧
      (ups.map List.length).sum = 250) ∧
    (get_batches xs s).length = (xs.length + s - 1) / s ∧
    (∀ b ∈ (get_batches xs s).dropLast, b.length = s) ∧
    (xs.length % s ≠ 0 →
      ∃ b, (get_batches xs s).getLast? = some b ∧ b.length = xs.length % s) := by
  constructor
  · have hfs : ∀ b ∈ get_batches ds 100, ∀ y ∈ b, fieldsSome y = true := by
      intro b hb y hy
      rw [get_batches_eq_chunks ds (by norm_num)] at hb
      have h1 : y ∈ (chunks 100 ds).flatten := List.mem_flatten.mpr ⟨b, hb, hy⟩
      rw [chunks_flatten] at h1
      exact is_valid_fieldsSome (hval y h1)
    obtain ⟨ups, h1, h2, _⟩ := ingestLoop_ok uuids encode (get_batches ds 100) 0 hfs
    have hmap : ups.map List.length = [100, 100, 50] := by
      rw [h2, get_batches_eq_chunks ds (by norm_num)]
      have hlen3 : (chunks 100 ds).length = 3 := by
        rw [chunks_length 100 (by norm_num), h250]
      obtain ⟨b1, b2, b3, he⟩ := List.length_eq_three.mp hlen3
      have hdl := chunks_dropLast 100 (by norm_num) ds
      have hgl := chunks_getLast 100 (by norm_num) ds
        (by intro h; rw [h] at h250; simp at h250)
      rw [he] at hdl hgl ⊢
      have hb1 : b1.length = 100 := hdl b1 (by simp)
      have hb2 : b2.length = 100 := hdl b2 (by simp)
      obtain ⟨b, hbeq, hblen⟩ := hgl
      have hbb : b = b3 := by
        simp [List.getLast?_cons] at hbeq
        exact hbeq.symm
      rw [h250] at hblen
      norm_num at hblen
      rw [hbb] at hblen
      simp [hb1, hb2, hblen]
    have hcount : ups.length = 3 := by
      have := congrArg List.length hmap
      simpa using this
    exact ⟨ups, h1, hcount, hmap, by rw [hmap]; norm_num⟩
  · refine ⟨?_, ?_, ?_⟩
    · rw [get_batches_eq_chunks xs hs]
      exact chunks_length s hs xs
    · rw [get_batches_eq_chunks xs hs]
      exact chunks_dropLast s hs xs
    · intro hmod
      have hx : xs ≠ [] := by
        intro he
        rw [he] at hmod
        simp at hmod
      rw [get_batches_eq_chunks xs hs]
      obtain ⟨b, hb1, hb2⟩ := chunks_getLast s hs xs hx
      rw [if_neg hmod] at hb2
      exact ⟨b, hb1, hb2⟩

/-- Witness for C4 at a 250-record corpus of copies of `sampleRecord`,
`xs = [0,…,6]`, `s = 3`. -/
theorem C4_ingest_250_witness :
    (∃ ups, ingest_songs (fun _ => "u") (fun _ => [])
        (List.replicate 250 sampleRecord) = .ok ups ∧
      ups.length = 3 ∧ ups.map List.length = [100, 100, 50] ∧
      (ups.map List.length).sum = 250) ∧
    (get_batches (List.range 7) 3).length = ((List.range 7).length + 3 - 1) / 3 ∧
    (∀ b ∈ (get_batches (List.range 7) 3).dropLast, b.length = 3) ∧
    ((List.range 7).length % 3 ≠ 0 →
      ∃ b, (get_batches (List.range 7) 3).getLast? = some b ∧
        b.length = (List.range 7).length % 3) :=
  C4_ingest_250 (fun _ => "u") (fun _ => [])
    (List.replicate 250 sampleRecord) (List.length_replicate 250 sampleRecord)
    (fun x hx => by rw [List.eq_of_mem_replicate hx]; rfl)
    (List.range 7) 3 (by norm_num)

/-- C5: for a record `x` at position `i` of a batch whose records all carry
the three critical keys, the text embedded for `x` is exactly
`"Artist: " ++ artist ++ " Song: " ++ song ++ " Lyrics: " ++ (first 500
characters of the lyrics)`, and the point built for `x` carries the fresh id
drawn for its position and a payload whose preview is exactly the first 200
characters of the lyrics. -/
theorem C5_processBatch_point (uuids : Nat → String) (encode : String → Vec)
    (start : Nat) (batch : List SourceRecord)
    (hall : ∀ y ∈ batch, fieldsSome y = true) (i : Nat) (x : SourceRecord)
    (hx : batch[i]? = some x) (a s t : String)
    (ha : x.artist = some a) (hs : x.song = some s) (ht : x.text = some t) :
    ∃ pts, processBatch uuids encode start batch = .ok pts ∧
      pts.length = batch.length ∧
      pts[i]? = some
        { id := uuids (start + i)
          vector := encode
            ("Artist: " ++ a ++ " Song: " ++ s ++ " Lyrics: " ++ t.take 500)
          payload := { artist := some a, song := some s, link := x.link,
                       text_preview := some (t.take 200) } } := by
  refine ⟨batch.enum.map fun nx => pointOf uuids encode (start + nx.1) nx.2,
    processBatch_eq hall, ?_, ?_⟩
  · rw [List.length_map, List.enum_length]
  · rw [List.getElem?_map, List.getElem?_enum, hx]
    simp only [Option.map_some']
    have h1 : embedStr x =
        "Artist: " ++ a ++ " Song: " ++ s ++ " Lyrics: " ++ t.take 500 := by
      rw [embedStr, ha, hs, ht]
      rfl
    have h2 : mkPayload x =
        { artist := some a, song := some s, link := x.link,
          text_preview := some (t.take 200) } := by
      rw [mkPayload, ha, hs, ht]
      rfl
    rw [pointOf, h1, h2]

/-- Witness for C5 at the one-record batch `[sampleRecord]`. -/
theorem C5_processBatch_point_witness :
    ∃ pts, processBatch (fun n => toString n) (fun _ => []) 0 [sampleRecord] =
        .ok pts ∧
      pts.length = [sampleRecord].length ∧
      pts[0]? = some
        { id := toString 0
          vector := (fun _ => ([] : Vec))
            ("Artist: " ++ "A" ++ " Song: " ++ "S" ++ " Lyrics: " ++
              String.take "T" 500)
          payload := { artist := some "A", song := some "S",
                       link := sampleRecord.link,
                       text_preview := some (String.take "T" 200) } } :=
  C5_processBatch_point (fun n => toString n) (fun _ => []) 0 [sampleRecord]
    (fun y hy => by rw [List.mem_singleton.mp hy]; rfl)
    0 sampleRecord rfl "A" "S" "T" rfl rfl rfl

theorem loadLoop_mem {limit : Option Int} {ds : List SourceRecord} {c : Int} :
    ∀ x ∈ loadLoop limit ds c, is_valid x = true ∧ x ∈ ds := by
  induction ds generalizing c with
  | nil =>
    intro x hx
    simp [loadLoop] at hx
  | cons y rest ih =>
    intro x hx
    rw [loadLoop] at hx
    cases hv : is_valid y with
    | false =>
      rw [if_pos (by simp [hv])] at hx
      obtain ⟨h3, h4⟩ := ih x hx
      exact ⟨h3, List.mem_cons_of_mem y h4⟩
    | true =>
      rw [if_neg (by simp [hv])] at hx
      by_cases hbreak : (limitTruthy limit && decide (c + 1 ≥ limit.getD 0)) = true
      · rw [if_pos hbreak] at hx
        rw [List.mem_singleton.mp hx]
        exact ⟨hv, List.mem_cons_self y rest⟩
      · rw [if_neg hbreak] at hx
        rcases List.mem_cons.mp hx with rfl | h2
        · exact ⟨hv, List.mem_cons_self x rest⟩
        · obtain ⟨h3, h4⟩ := ih x h2
          exact ⟨h3, List.mem_cons_of_mem y h4⟩

theorem loadLoop_filter_none {ds : List SourceRecord} {c : Int} :
    loadLoop none ds c = ds.filter is_valid := by
  induction ds generalizing c with
  | nil => rfl
  | cons y rest ih =>
    rw [loadLoop, List.filter_cons]
    cases hv : is_valid y
    · rw [if_pos (by simp [hv]), if_neg (by simp [hv])]
      exact ih
    · rw [if_neg (by simp [hv]), if_neg (by simp [limitTruthy]), if_pos rfl, ih]

theorem loadLoop_take {ds : List SourceRecord} {n : Int} (hn : 1 ≤ n) :
    ∀ c : Int, 0 ≤ c → c < n →
      loadLoop (some n) ds c = (ds.filter is_valid).take (n - c).toNat := by
  induction ds with
  | nil =>
    intro c h1 h2
    simp [loadLoop]
  | cons y rest ih =>
    intro c h1 h2
    rw [loadLoop, List.filter_cons]
    cases hv : is_valid y
    · rw [if_pos (by simp [hv]), if_neg (by simp [hv])]
      exact ih c h1 h2
    · rw [if_neg (by simp [hv]), if_pos rfl]
      by_cases hb : c + 1 ≥ n
      · rw [if_pos (by simp [limitTruthy]; omega)]
        rw [show (n - c).toNat = 1 by omega]
        rfl
      · rw [if_neg (by simp [limitTruthy]; omega)]
        rw [ih (c + 1) (by omega) (by omega)]
        rw [show (n - c).toNat = (n - (c + 1)).toNat + 1 by omega]
        rfl

/-- C6: a corpus record missing (or carrying an empty) `artist`, `song` or
`text` field is not yielded by the loader, hence excluded from ingestion:
every ingested point originates from a valid corpus record.  Valid records
are yielded unchanged, up to the optional length limit. -/
theorem C6_loader (ds : List SourceRecord) (limit : Option Int) :
    (∀ x ∈ load_spotify_dataset ds limit, is_valid x = true ∧ x ∈ ds) ∧
    (∀ x ∈ ds, is_valid x = false → x ∉ load_spotify_dataset ds limit) ∧
    load_spotify_dataset ds none = ds.filter is_valid ∧
    (∀ n : Int, 1 ≤ n →
      load_spotify_dataset ds (some n) = (ds.filter is_valid).take n.toNat) ∧
    (∀ uuids encode ups,
      ingest_songs uuids encode (load_spotify_dataset ds limit) = .ok ups →
      ∀ pts ∈ ups, ∀ pt ∈ pts, ∃ x, x ∈ ds ∧ is_valid x = true ∧
        pt.payload = mkPayload x) := by
  have hmem : ∀ x ∈ load_spotify_dataset ds limit, is_valid x = true ∧ x ∈ ds := by
    intro x hx
    rw [load_spotify_dataset] at hx
    exact loadLoop_mem x hx
  refine ⟨hmem, ?_, ?_, ?_, ?_⟩
  · intro x _ hbad hmemL
    have h1 := (hmem x hmemL).1
    rw [hbad] at h1
    exact Bool.false_ne_true h1
  · rw [load_spotify_dataset]
    exact loadLoop_filter_none
  · intro n hn
    rw [load_spotify_dataset, loadLoop_take hn 0 le_rfl (by omega)]
    norm_num
  · intro uuids encode ups hok pts hpts pt hpt
    have hfs : ∀ b ∈ get_batches (load_spotify_dataset ds limit) 100,
        ∀ y ∈ b, fieldsSome y = true := by
      intro b hb y hy
      rw [get_batches_eq_chunks _ (by norm_num)] at hb
      have h1 : y ∈ (chunks 100 (load_spotify_dataset ds limit)).flatten :=
        List.mem_flatten.mpr ⟨b, hb, hy⟩
      rw [chunks_flatten] at h1
      exact is_valid_fieldsSome (hmem y h1).1
    obtain ⟨ups', h1, _, h3⟩ :=
      ingestLoop_ok uuids encode
        (get_batches (load_spotify_dataset ds limit) 100) 0 hfs
    rw [ingest_songs] at hok
    rw [hok] at h1
    obtain rfl : ups = ups' := Except.ok.inj h1
    obtain ⟨b, hb, y, hy, he⟩ := h3 pts hpts pt hpt
    have hyload : y ∈ load_spotify_dataset ds limit := by
      rw [get_batches_eq_chunks _ (by norm_num)] at hb
      have h4 : y ∈ (chunks 100 (load_spotify_dataset ds limit)).flatten :=
        List.mem_flatten.mpr ⟨b, hb, hy⟩
      rwa [chunks_flatten] at h4
    obtain ⟨hv, hds⟩ := hmem y hyload
    exact ⟨y, hds, hv, he⟩

/-- Witness for C6 at the two-record corpus `[sampleRecord, badRecord]` with
limit 1. -/
theorem C6_loader_witness :
    (∀ x ∈ load_spotify_dataset [sampleRecord, badRecord] (some 1),
      is_valid x = true ∧ x ∈ [sampleRecord, badRecord]) ∧
    (∀ x ∈ [sampleRecord, badRecord], is_valid x = false →
      x ∉ load_spotify_dataset [sampleRecord, badRecord] (some 1)) ∧
    load_spotify_dataset [sampleRecord, badRecord] none =
      List.filter is_valid [sampleRecord, badRecord] ∧
    (∀ n : Int, 1 ≤ n →
      load_spotify_dataset [sampleRecord, badRecord] (some n) =
        (List.filter is_valid [sampleRecord, badRecord]).take n.toNat) ∧
    (∀ uuids encode ups,
      ingest_songs uuids encode
          (load_spotify_dataset [sampleRecord, badRecord] (some 1)) = .ok ups →
      ∀ pts ∈ ups, ∀ pt ∈ pts, ∃ x, x ∈ [sampleRecord, badRecord] ∧
        is_valid x = true ∧ pt.payload = mkPayload x) :=
  C6_loader [sampleRecord, badRecord] (some 1)

theorem ensure_collection_exists {st : StoreState} {name : String} {dim : Nat}
    {m : Metric} {sch : CollectionSchema}
    (h : st.collections.lookup name = some sch) :
    ensure_collection st name dim m = st := by
  simp [ensure_collection, get_collection, h]

/-- C8: the collection bootstrap (`get_collection`, falling back to
`create_collection` only on failure) is idempotent — running it twice with
the same name, dimension and metric equals running it once — and it never
mutates an already-existing collection (the state is returned untouched). -/
theorem C8_ensure_collection_idempotent (st : StoreState) (name : String)
    (dim : Nat) (m : Metric) :
    ensure_collection (ensure_collection st name dim m) name dim m =
      ensure_collection st name dim m ∧
    ∀ sch, st.collections.lookup name = some sch →
      ensure_collection st name dim m = st := by
  constructor
  · cases hl : st.collections.lookup name with
    | some sch =>
      rw [ensure_collection_exists hl, ensure_collection_exists hl]
    | none =>
      have h2 : (ensure_collection st name dim m).collections.lookup name =
          some ⟨dim, m⟩ := by
        simp [ensure_collection, get_collection, hl, create_collection,
          List.lookup_cons]
      exact ensure_collection_exists h2
  · intro sch h
    exact ensure_collection_exists h

/-- Witness for C8 at a state already holding the `"songs"` collection. -/
theorem C8_ensure_collection_idempotent_witness :
    ensure_collection (ensure_collection sampleState "songs" 384 .cosine)
        "songs" 384 .cosine =
      ensure_collection sampleState "songs" 384 .cosine ∧
    ensure_collection sampleState "songs" 384 .cosine = sampleState :=
  ⟨(C8_ensure_collection_idempotent sampleState "songs" 384 .cosine).1,
   (C8_ensure_collection_idempotent sampleState "songs" 384 .cosine).2
     ⟨384, .cosine⟩ rfl⟩

/-- C9: the `Song` model's `score` field defaults to `None`; every song
returned by the artist search carries `score = None`, while every song
returned by the semantic search carries a non-`None` score. -/
theorem C9_score_field (a b l p : String) :
    ({ artist := a, song := b, link := l, preview := p } : Song).score = none ∧
    (∀ store artist limit, ∀ s ∈ search_songs_by_artist store artist limit,
      s.score = none) ∧
    (∀ encode store q limit, ∀ s ∈ search_songs encode store q limit,
      ∃ r, s.score = some r) := by
  refine ⟨rfl, ?_, ?_⟩
  · intro store artist limit s hs
    rw [search_songs_by_artist] at hs
    cases h : store (search_songs_by_artist_storeRequest artist limit) with
    | error err =>
      rw [h] at hs
      simp at hs
    | ok pts =>
      rw [h] at hs
      simp only [List.mem_map] at hs
      obtain ⟨pp, _, rfl⟩ := hs
      rfl
  · intro encode store q limit s hs
    cases he : encode q with
    | error err =>
      rw [search_songs, he] at hs
      simp at hs
    | ok v =>
      have hs2 : s ∈ (match store (search_songs_storeRequest v limit) with
          | .error _ => ([] : List Song)
          | .ok pts => pts.map toSongScored) := by
        rw [search_songs, he] at hs
        exact hs
      cases h : store (search_songs_storeRequest v limit) with
      | error err =>
        rw [h] at hs2
        simp at hs2
      | ok pts =>
        rw [h] at hs2
        simp only [List.mem_map] at hs2
        obtain ⟨pp, _, rfl⟩ := hs2
        exact ⟨pyRound4 pp.score, rfl⟩

/-- Witness for C9 at a one-point store. -/
theorem C9_score_field_witness :
    ({ artist := "a", song := "s", link := "l", preview := "p" } : Song).score
        = none ∧
    (toSongPlain samplePayload).score = none ∧
    ∃ r, (toSongScored { score := 1, payload := samplePayload }).score =
      some r :=
  ⟨(C9_score_field "a" "s" "l" "p").1,
   (C9_score_field "a" "s" "l" "p").2.1 (qdrantStore (fun _ _ => 1) sampleDB)
     "A" 5 (toSongPlain samplePayload) (by decide),
   (C9_score_field "a" "s" "l" "p").2.2 (fun _ => .ok [1])
     (qdrantStore (fun _ _ => 1) sampleDB) "q" 5
     (toSongScored { score := 1, payload := samplePayload })
     (List.mem_singleton_self _)⟩

/-- C2 counterexample: the collection-stats operation sends the vector store
a request that carries no limit at all, so it cannot clamp one — the claim
that all three tool operations clamp a limit into `[1, 50]` is false for
`get_collection_stats`. -/
theorem C2_counterexample :
    requestLimit get_collection_stats_storeRequest = none := rfl

/-- C2 (amended): the two search operations clamp their limit argument to
exactly `min(max(1, limit), 50)` — a value within `[1, 50]` — in the request
actually passed to the vector store; `get_collection_stats` takes no limit
and its store request carries none. -/
theorem C2_clamped_limits (limit : Int) (v : Vec) (a : String) :
    search_songs_storeRequest v limit = .queryPoints v (min (max 1 limit) 50) ∧
    search_songs_by_artist_storeRequest a limit =
      .scroll "artist" a (min (max 1 limit) 50) ∧
    1 ≤ clampLimit limit ∧ clampLimit limit ≤ 50 ∧
    requestLimit (search_songs_storeRequest v limit) = some (clampLimit limit) ∧
    requestLimit (search_songs_by_artist_storeRequest a limit) =
      some (clampLimit limit) ∧
    requestLimit get_collection_stats_storeRequest = none := by
  refine ⟨rfl, rfl, ?_, ?_, rfl, rfl, rfl⟩
  · rw [clampLimit]
    omega
  · rw [clampLimit]
    omega

/-- C3: when the underlying embedding or store call raises, the two search
tools return the empty list and the stats tool returns the error-shaped
payload with an `"error"` key and status `"unavailable"`; none of them
propagates the exception (all three are total functions of the result). -/
theorem C3_failure_shapes (e q a : String) (limit : Int) (store : Store)
    (encode : String → Except String Vec) :
    search_songs (fun _ => .error e) store q limit = [] ∧
    search_songs encode (failStore e) q limit = [] ∧
    search_songs_by_artist (failStore e) a limit = [] ∧
    (get_collection_stats (failStore e)).lookup "error" =
      some (.str ("Failed to get stats: " ++ e)) ∧
    (get_collection_stats (failStore e)).lookup "status" =
      some (.str "unavailable") := by
  refine ⟨rfl, ?_, rfl, rfl, rfl⟩
  rw [search_songs]
  cases encode q <;> rfl

/-- C7: every song returned by the artist search against the modelled store
has an `artist` field exactly equal to the searched name, because the scroll
filter requires the payload key `"artist"` to match that value exactly. -/
theorem C7_artist_exact_match (sim : Vec → Vec → ℚ) (db : List DBPoint)
    (X : String) (limit : Int) :
    ∀ s ∈ search_songs_by_artist (qdrantStore sim db) X limit, s.artist = X := by
  intro s hs
  rw [search_songs_by_artist] at hs
  simp only [search_songs_by_artist_storeRequest, qdrantStore] at hs
  simp only [List.mem_map] at hs
  obtain ⟨p, hp, rfl⟩ := hs
  have hp2 := List.mem_of_mem_take hp
  obtain ⟨dbp, hdbp, rfl⟩ := List.mem_map.mp hp2
  have hf := (List.mem_filter.mp hdbp).2
  have hf2 : dbp.payload.artist = some X := by
    have h3 := eq_of_beq hf
    simpa [payloadField] using h3
  simp [toSongPlain, hf2]

/-- Witness for C7 at the one-point store whose payload artist is `"A"`. -/
theorem C7_artist_exact_match_witness : (toSongPlain samplePayload).artist = "A" :=
  C7_artist_exact_match (fun _ _ => 1) sampleDB "A" 5 (toSongPlain samplePayload)
    (by decide)

theorem floor_le_roundHalfToEven (q : ℚ) : ⌊q⌋ ≤ roundHalfToEven q := by
  rw [roundHalfToEven]
  split_ifs <;> omega

theorem roundHalfToEven_le_floor_add_one (q : ℚ) :
    roundHalfToEven q ≤ ⌊q⌋ + 1 := by
  rw [roundHalfToEven]
  split_ifs <;> omega

theorem roundHalfToEven_le_ceil (q : ℚ) : roundHalfToEven q ≤ ⌈q⌉ := by
  rw [roundHalfToEven]
  split_ifs with h1 h2 h3
  · exact Int.floor_le_ceil q
  · have hlt : (⌊q⌋ : ℚ) < q := by linarith
    have h4 := Int.lt_ceil.mpr hlt
    omega
  · exact Int.floor_le_ceil q
  · have hlt : (⌊q⌋ : ℚ) < q := by linarith
    have h4 := Int.lt_ceil.mpr hlt
    omega

theorem roundHalfToEven_mono {q r : ℚ} (h : q ≤ r) :
    roundHalfToEven q ≤ roundHalfToEven r := by
  have hf : ⌊q⌋ ≤ ⌊r⌋ := Int.floor_le_floor h
  rcases lt_or_eq_of_le hf with hlt | heq
  · have h1 := roundHalfToEven_le_floor_add_one q
    have h2 := floor_le_roundHalfToEven r
    omega
  · rw [roundHalfToEven, roundHalfToEven, ← heq]
    split_ifs <;> first | omega | linarith

theorem pyRound4_mono {q r : ℚ} (h : q ≤ r) : pyRound4 q ≤ pyRound4 r := by
  rw [pyRound4, pyRound4]
  have h1 : q * 10000 ≤ r * 10000 := by linarith
  have h2 := roundHalfToEven_mono h1
  have h3 : ((roundHalfToEven (q * 10000)) : ℚ) ≤
      ((roundHalfToEven (r * 10000)) : ℚ) := by exact_mod_cast h2
  linarith

theorem pyRound4_bounds {q : ℚ} (h1 : -1 ≤ q) (h2 : q ≤ 1) :
    -1 ≤ pyRound4 q ∧ pyRound4 q ≤ 1 := by
  have hub : roundHalfToEven (q * 10000) ≤ 10000 := by
    have ha := roundHalfToEven_le_ceil (q * 10000)
    have hc : ⌈q * 10000⌉ ≤ (10000 : ℤ) := by
      apply Int.ceil_le.mpr
      push_cast
      linarith
    omega
  have hlb : (-10000 : ℤ) ≤ roundHalfToEven (q * 10000) := by
    have ha := floor_le_roundHalfToEven (q * 10000)
    have hc : (-10000 : ℤ) ≤ ⌊q * 10000⌋ := by
      apply Int.le_floor.mpr
      push_cast
      linarith
    omega
  constructor
  · rw [pyRound4]
    have h4 : ((-10000 : ℤ) : ℚ) ≤ ((roundHalfToEven (q * 10000)) : ℚ) := by
      exact_mod_cast hlb
    push_cast at h4
    linarith
  · rw [pyRound4]
    have h4 : ((roundHalfToEven (q * 10000)) : ℚ) ≤ ((10000 : ℤ) : ℚ) := by
      exact_mod_cast hub
    push_cast at h4
    linarith

/-- C1 counterexample: the claim fails at limit `k = 0` — the clamp raises
the limit to `1`, so on a one-point store `search_songs` returns one song,
more than the requested zero. -/
theorem C1_counterexample :
    (search_songs (fun _ => .ok [1]) (qdrantStore (fun _ _ => 1) sampleDB)
      "q" 0).length = 1 := rfl

/-- C1 (amended): for every query and every limit `k ≥ 1`, `search_songs`
returns at most `k` songs, each carrying a score that is the 4-decimal
rounding of a similarity valid for the cosine metric (so itself within
`[-1, 1]`), and the list is sorted in descending order of score. -/
theorem C1_search_songs_ranked (encode : String → Except String Vec)
    (sim : Vec → Vec → ℚ) (db : List DBPoint) (q : String) (k : Int)
    (hk : 1 ≤ k)
    (hsim : ∀ v p, p ∈ db → -1 ≤ sim v p.vector ∧ sim v p.vector ≤ 1) :
    ((search_songs encode (qdrantStore sim db) q k).length : Int) ≤ k ∧
    (∀ s ∈ search_songs encode (qdrantStore sim db) q k,
      ∃ r, s.score = some r ∧ -1 ≤ r ∧ r ≤ 1) ∧
    List.Pairwise (fun a b : ℚ => b ≤ a)
      ((search_songs encode (qdrantStore sim db) q k).filterMap Song.score) := by
  cases he : encode q with
  | error err =>
    have hempty : search_songs encode (qdrantStore sim db) q k = [] := by
      rw [search_songs, he]
    rw [hempty]
    exact ⟨by simp; omega, by simp, by simp⟩
  | ok v =>
    have heq : search_songs encode (qdrantStore sim db) q k =
        ((sortByScoreDesc (db.map fun p =>
          ⟨sim v p.vector, p.payload⟩)).take (clampLimit k).toNat).map
          toSongScored := by
      rw [search_songs, he]
      rfl
    rw [heq]
    refine ⟨?_, ?_, ?_⟩
    · rw [List.length_map, List.length_take]
      have hcl : clampLimit k ≤ k := by rw [clampLimit]; omega
      have hnn : 0 ≤ clampLimit k := by rw [clampLimit]; omega
      have h1 : ((clampLimit k).toNat : Int) = clampLimit k :=
        Int.toNat_of_nonneg hnn
      omega
    · intro s hs
      obtain ⟨p, hp, rfl⟩ := List.mem_map.mp hs
      have hp2 : p ∈ sortByScoreDesc (db.map fun p =>
          (⟨sim v p.vector, p.payload⟩ : ScoredPoint)) :=
        List.mem_of_mem_take hp
      rw [sortByScoreDesc] at hp2
      have hp3 := (List.mem_insertionSort scoreGE).mp hp2
      obtain ⟨dbp, hdbp, rfl⟩ := List.mem_map.mp hp3
      obtain ⟨hb1, hb2⟩ := hsim v dbp hdbp
      obtain ⟨hr1, hr2⟩ := pyRound4_bounds hb1 hb2
      exact ⟨pyRound4 (sim v dbp.vector), rfl, hr1, hr2⟩
    · have hsorted : List.Sorted scoreGE (sortByScoreDesc (db.map fun p =>
          (⟨sim v p.vector, p.payload⟩ : ScoredPoint))) :=
        List.sorted_insertionSort scoreGE _
      have hsorted2 := List.Pairwise.sublist (List.take_sublist
        (clampLimit k).toNat _) hsorted
      rw [List.filterMap_map]
      rw [show (Song.score ∘ toSongScored) =
        some ∘ (fun p : ScoredPoint => pyRound4 p.score) from rfl]
      rw [List.filterMap_eq_map]
      rw [List.pairwise_map]
      exact hsorted2.imp (fun hab => pyRound4_mono hab)

/-- Witness for C1 (amended) at `k = 3` on the one-point store with a
constant similarity of one half. -/
theorem C1_search_songs_ranked_witness :
    ((search_songs (fun _ => .ok [1])
        (qdrantStore (fun _ _ => (1/2 : ℚ)) sampleDB) "q" 3).length : Int) ≤ 3 ∧
    (∀ s ∈ search_songs (fun _ => .ok [1])
        (qdrantStore (fun _ _ => (1/2 : ℚ)) sampleDB) "q" 3,
      ∃ r, s.score = some r ∧ -1 ≤ r ∧ r ≤ 1) ∧
    List.Pairwise (fun a b : ℚ => b ≤ a)
      ((search_songs (fun _ => .ok [1])
        (qdrantStore (fun _ _ => (1/2 : ℚ)) sampleDB) "q" 3).filterMap
        Song.score) :=
  C1_search_songs_ranked (fun _ => .ok [1]) (fun _ _ => (1/2 : ℚ)) sampleDB
    "q" 3 (by norm_num) (fun v p _ => by norm_num)

end VibeCurator
